import Mathlib

/-
Verification of the s3-asyncio-client core against its specification.

The Python sources are shallowly embedded:
  * Python `str` values are modelled as `List Char` (`Str`); `bytes` as `List Nat`
    (one `Nat` per byte, values < 256).
  * Python `dict[str, str]` is modelled as an association list in insertion
    order (`Dict`); assignment `d[k] = v` replaces the value in place when the
    key is present and appends otherwise, exactly like a Python dict.
  * `hashlib.sha256` / `hmac.new(..).digest()` are external primitives; they are
    abstracted as fields of a `HashImpl` record that is passed explicitly.
  * `datetime.utcnow()` is ambient state; the derived `timestamp`/`date_stamp`
    strings are passed as explicit parameters.
  * `math.ceil(a / b)` on sizes is modelled as exact ceiling division on `Nat`.
  * Exceptions are modelled with `Except`; awaited coroutine outcomes are passed
    in as `Except` values.
-/

namespace S3

abbrev Str := List Char

/-- Shorthand turning a Lean string literal into the `List Char` model of a
Python `str`. -/
def lc (s : String) : Str := s.data

/-! ## Generic character/string helpers (models of Python `str` methods) -/

/-- Model of Python `str.lower` for the ASCII range (header names and bucket
names in this code base are ASCII). -/
def lowerChar (c : Char) : Char :=
  if 'A' ≤ c ∧ c ≤ 'Z' then Char.ofNat (c.toNat + 32) else c

/-- Model of Python `str.lower` on a whole string. -/
def lower (s : Str) : Str := s.map lowerChar

/-- ASCII whitespace recognised by Python `str.strip()`. -/
def isSpaceChar (c : Char) : Bool :=
  c = ' ' || c = '\t' || c = '\n' || c = '\r' || c = '\x0b' || c = '\x0c'

/-- Model of Python `str.strip()`. -/
def strip (s : Str) : Str :=
  ((s.dropWhile isSpaceChar).reverse.dropWhile isSpaceChar).reverse

/-- Lexicographic comparison of strings by code point, the order used by
Python's `<=` on `str` and hence by `sorted`. -/
def lexLe : List Char → List Char → Bool
  | [], _ => true
  | _ :: _, [] => false
  | a :: as, b :: bs =>
    if a < b then true
    else if b < a then false
    else lexLe as bs

/-- Does `l` start with `pat`? (model of `str.startswith`). -/
def startsWithSeq : List Char → List Char → Bool
  | _, [] => true
  | [], _ :: _ => false
  | a :: l, b :: p => a = b && startsWithSeq l p

/-- Does `l` contain `pat` as a contiguous substring? (model of Python `in`). -/
def containsSeq : List Char → List Char → Bool
  | [], pat => pat.isEmpty
  | a :: l, pat => startsWithSeq (a :: l) pat || containsSeq l pat

/-- Does `l` end with `pat`? (model of `str.endswith`). -/
def endsWithSeq (l pat : List Char) : Bool :=
  startsWithSeq l.reverse pat.reverse

/-- Decimal rendering of a natural number, as Python `str(n)`. -/
def natStr (n : Nat) : Str := (Nat.repr n).data

/-! ## Multipart sizing (src/s3_asyncio_client/multipart.py) -/

def MB : Nat := 1024 * 1024
def GB : Nat := 1024 * MB
def MIN_PART_SIZE : Nat := 5 * MB
def MAX_PART_SIZE : Nat := 5 * GB
def MAX_PARTS : Nat := 10000

/-- Python `should_use_multipart(file_size, threshold)`: `file_size > threshold`. -/
def should_use_multipart (file_size threshold : Nat) : Bool :=
  threshold < file_size

/-- Exact ceiling division, the model of `math.ceil(file_size / chunksize)`. -/
def ceilDiv (a b : Nat) : Nat := (a + b - 1) / b

theorem ceilDiv_le_iff {a b c : Nat} (hb : 0 < b) : ceilDiv a b ≤ c ↔ a ≤ b * c := by
  rw [ceilDiv, ← Nat.ceilDiv_eq_add_pred_div]
  exact ceilDiv_le_iff_le_mul hb

theorem div_double_lt (f c : Nat) (h : MAX_PARTS < ceilDiv f c) : f / (c * 2) < f / c := by
  have hc : 0 < c := by
    rcases Nat.eq_zero_or_pos c with h0 | h0
    · subst h0; simp [ceilDiv, MAX_PARTS] at h
    · exact h0
  have hcf : c ≤ f := by
    by_contra hlt
    push_neg at hlt
    have h2 : ceilDiv f c < 2 := by
      rw [ceilDiv, Nat.div_lt_iff_lt_mul hc]
      omega
    simp [MAX_PARTS] at h
    omega
  rw [← Nat.div_div_eq_div_mul]
  have hpos : 0 < f / c := (Nat.one_le_div_iff hc).mpr hcf
  exact Nat.div_lt_self hpos (by omega)

/-- Python `_adjust_for_max_parts`: double the chunk size while the implied part count
exceeds `MAX_PARTS`.  (For `chunksize = 0` Python would raise
`ZeroDivisionError`; here the guard is simply false and the argument is
returned, so the embedding is used only at positive chunk sizes.) -/
def _adjust_for_max_parts (chunksize file_size : Nat) : Nat :=
  if MAX_PARTS < ceilDiv file_size chunksize then
    _adjust_for_max_parts (chunksize * 2) file_size
  else chunksize
termination_by file_size / chunksize
decreasing_by exact div_double_lt file_size chunksize (by assumption)

/-- Python `_adjust_for_size_limits`: clamp into `[MIN_PART_SIZE, MAX_PART_SIZE]`. -/
def _adjust_for_size_limits (chunksize : Nat) : Nat :=
  if MAX_PART_SIZE < chunksize then MAX_PART_SIZE
  else if chunksize < MIN_PART_SIZE then MIN_PART_SIZE
  else chunksize

/-- Python `adjust_chunk_size(current_chunksize, file_size)` with a file size given
(the only way the multipart path calls it). -/
def adjust_chunk_size (current_chunksize file_size : Nat) : Nat :=
  _adjust_for_size_limits (_adjust_for_max_parts current_chunksize file_size)

theorem _adjust_for_max_parts_spec (c f : Nat) (h : 0 < c) :
    ceilDiv f (_adjust_for_max_parts c f) ≤ MAX_PARTS ∧ c ≤ _adjust_for_max_parts c f := by
  induction c, f using _adjust_for_max_parts.induct with
  | case1 c f hguard ih =>
    rw [_adjust_for_max_parts, if_pos hguard]
    have := ih (by omega)
    omega
  | case2 c f hguard =>
    rw [_adjust_for_max_parts, if_neg hguard]
    omega

/-! ## Bucket name validation (src/s3_asyncio_client/urlparsing.py) -/

/-- One character of the regex class `[a-z0-9.-]`. -/
def bucketCharOk (c : Char) : Bool :=
  c.isLower || c.isDigit || c = '.' || c = '-'

/-- Membership of an optional character in the Python string `"-."` (used for
`bucket[0] in "-."` / `bucket[-1] in "-."`; `none` can not occur because
emptiness is rejected first). -/
def edgeDashDot (o : Option Char) : Bool :=
  match o with
  | some c => c = '-' || c = '.'
  | none => false

/-- Python's `$` anchor (without `re.MULTILINE`) matches at the end of the
string or just before one final newline, so an anchored `re.match` sees the
string minus an optional single trailing newline.  `matchEnd` is that view. -/
def matchEnd (l : List Char) : List Char :=
  if l.getLast? = some '\n' then l.dropLast else l

/-- Python `re.match(r"^[a-z0-9.-]+$", bucket)` as a Bool: the string minus
an optional single trailing newline is a non-empty run of `[a-z0-9.-]`
characters (`\n` is not in the class, so it can only be tolerated as the
final character, via `$`). -/
def bucketCharsetMatch (bucket : List Char) : Bool :=
  !(matchEnd bucket).isEmpty && (matchEnd bucket).all bucketCharOk

/-- The dotted-quad core of the regex `^\d+\.\d+\.\d+\.\d+$`: exactly four
non-empty runs of decimal digits separated by single dots.  The code's
`re.match` of this pattern on `bucket` holds iff
`isIPv4Shape (matchEnd bucket)` (the same `$` tolerance of one trailing
newline as above). -/
def isIPv4Shape (l : List Char) : Bool :=
  let parts := l.splitOn '.'
  parts.length = 4 && parts.all fun p => !p.isEmpty && p.all Char.isDigit

/-- Python `is_valid_s3_bucket_subdomain(bucket)`, translated clause by clause. -/
def is_valid_s3_bucket_subdomain (bucket : List Char) : Bool :=
  if bucket.isEmpty = true ∨ bucket.length < 3 ∨ 63 < bucket.length then false
  else if bucketCharsetMatch bucket = false then false
  else if edgeDashDot bucket.head? = true ∨ edgeDashDot bucket.getLast? = true then false
  else if containsSeq bucket (lc ("..")) = true ∨ containsSeq bucket (lc (".-")) = true ∨
          containsSeq bucket (lc ("-.")) = true then false
  else if isIPv4Shape (matchEnd bucket) = true then false
  else true

theorem bucketCharsetMatch_eq_true_iff (b : List Char) :
    bucketCharsetMatch b = true ↔
      (matchEnd b ≠ [] ∧ ∀ c ∈ matchEnd b, bucketCharOk c = true) := by
  unfold bucketCharsetMatch
  simp [List.all_eq_true, List.isEmpty_iff]

/-! ## Dict model

A Python `dict[str, str]` in insertion order.  `dictSet` is item assignment
(`d[k] = v`): replace in place when the key exists, append otherwise.
`dictUpdate` is `d.update(entries)`. -/

abbrev Dict := List (Str × Str)

def keys (d : Dict) : List Str := d.map Prod.fst

def dictHasKey (d : Dict) (k : Str) : Bool := decide (k ∈ keys d)

def dictGet (d : Dict) (k : Str) : Str :=
  ((d.find? fun p => p.1 == k).map Prod.snd).getD []

def dictSet (d : Dict) (k v : Str) : Dict :=
  if dictHasKey d k then d.map fun p => if p.1 == k then (k, v) else p
  else d ++ [(k, v)]

def dictUpdate (d : Dict) (entries : Dict) : Dict :=
  entries.foldl (fun acc p => dictSet acc p.1 p.2) d

/-! ## Percent-encoding (model of `urllib.parse.quote`) -/

/-- UTF-8 encoding of one character, one `Nat` per byte. -/
def utf8Bytes (c : Char) : List Nat :=
  let n := c.toNat
  if n < 0x80 then [n]
  else if n < 0x800 then
    [0xC0 ||| (n >>> 6), 0x80 ||| (n &&& 0x3F)]
  else if n < 0x10000 then
    [0xE0 ||| (n >>> 12), 0x80 ||| ((n >>> 6) &&& 0x3F), 0x80 ||| (n &&& 0x3F)]
  else
    [0xF0 ||| (n >>> 18), 0x80 ||| ((n >>> 12) &&& 0x3F),
     0x80 ||| ((n >>> 6) &&& 0x3F), 0x80 ||| (n &&& 0x3F)]

/-- UTF-8 bytes of a whole string (model of `str.encode("utf-8")`). -/
def strBytes (s : Str) : List Nat := (s.map utf8Bytes).flatten

def hexDigitUpper (n : Nat) : Char := (lc ("0123456789ABCDEF")).getD n '0'

def hexDigitLower (n : Nat) : Char := (lc ("0123456789abcdef")).getD n '0'

/-- A byte as two upper-case hex digits, as `urllib.parse.quote` escapes it. -/
def hexByteUpper (b : Nat) : List Char := [hexDigitUpper (b / 16), hexDigitUpper (b % 16)]

/-- Lower-case hex of a byte string (model of `.hexdigest()`). -/
def hexLower (bs : List Nat) : Str :=
  (bs.map fun b => [hexDigitLower (b / 16), hexDigitLower (b % 16)]).flatten

/-- Python `urllib.parse`'s always-safe characters: ASCII letters, digits, `_.-~`. -/
def alwaysSafeChar (c : Char) : Bool :=
  c.isAlpha || c.isDigit || c = '_' || c = '.' || c = '-' || c = '~'

/-- One character under `urllib.parse.quote(_, safe)`. -/
def quoteChar (safe : List Char) (c : Char) : List Char :=
  if alwaysSafeChar c || c ∈ safe then [c]
  else ((utf8Bytes c).map fun b => '%' :: hexByteUpper b).flatten

/-- Python `urllib.parse.quote(s, safe)`; the call sites use `safe = "/"` (default)
for query parts and `safe = "/~"` for the canonical URI. -/
def pyQuote (safe : List Char) (s : Str) : Str := (s.map (quoteChar safe)).flatten

/-! ## Signature engine (src/s3_asyncio_client/auth.py) -/

/-- The cryptographic primitives used by `auth.py` (`hashlib.sha256(..)
.hexdigest()` and `hmac.new(.., .., sha256).digest()`) are external library
calls; they are abstracted as explicit function parameters. -/
structure HashImpl where
  sha256hex : List Nat → Str
  hmacBytes : List Nat → List Nat → List Nat

/-- Credentials held by `AWSSignatureV4.__init__`. -/
structure AWSSignatureV4 where
  access_key : Str
  secret_key : Str
  region : Str
  service : Str

/-- Python `_sha256_hash(data)`. -/
def _sha256_hash (H : HashImpl) (data : List Nat) : Str := H.sha256hex data

/-- Python `_hmac_sha256(key, data)`: the message string is UTF-8 encoded. -/
def _hmac_sha256 (H : HashImpl) (key : List Nat) (data : Str) : List Nat :=
  H.hmacBytes key (strBytes data)

/-- Python `_get_signature_key(date_stamp)`. -/
def _get_signature_key (H : HashImpl) (ctx : AWSSignatureV4) (date_stamp : Str) : List Nat :=
  let k_date := _hmac_sha256 H (strBytes (lc ("AWS4") ++ ctx.secret_key)) date_stamp
  let k_region := _hmac_sha256 H k_date ctx.region
  let k_service := _hmac_sha256 H k_region ctx.service
  _hmac_sha256 H k_service (lc ("aws4_request"))

/-- The credential scope: date stamp, region, service and the literal
aws4_request, joined with slashes. -/
def credentialScope (ctx : AWSSignatureV4) (date_stamp : Str) : Str :=
  date_stamp ++ lc ("/") ++ ctx.region ++ lc ("/") ++ ctx.service ++ lc ("/aws4_request")

/-- The canonical-headers block of `_create_canonical_request`: one
`name.lower():value.strip()\n` line per header, iterated over
`sorted(headers.keys())` — i.e. sorted by the RAW header name. -/
def canonical_headers_str (headers : Dict) : Str :=
  ((List.insertionSort (fun a b => lexLe a b = true) (keys headers)).map
    fun name => lower name ++ lc (":") ++ strip (dictGet headers name) ++ lc ("\n")).flatten

/-- The `SignedHeaders` list of `sign_request`:
`";".flatten(sorted(headers.keys(), key=str.lower))`. -/
def signed_headers_str (headers : Dict) : Str :=
  List.intercalate (lc (";"))
    (List.insertionSort (fun a b => lexLe (lower a) (lower b) = true) (keys headers))

/-- Python `_create_canonical_request`. -/
def _create_canonical_request (method uri query_string : Str) (headers : Dict)
    (signed_headers payload_hash : Str) : Str :=
  let canonical_uri := pyQuote (lc ("/~")) uri
  let canonical_headers := canonical_headers_str headers
  List.intercalate (lc ("\n"))
    [method, canonical_uri, query_string, canonical_headers, signed_headers, payload_hash]

/-- Python `_create_string_to_sign`. -/
def _create_string_to_sign (H : HashImpl) (ctx : AWSSignatureV4)
    (timestamp date_stamp canonical_request : Str) : Str :=
  List.intercalate (lc ("\n"))
    [lc ("AWS4-HMAC-SHA256"), timestamp, credentialScope ctx date_stamp,
     _sha256_hash H (strBytes canonical_request)]

/-- Python tuple order on `(key, value)` pairs, used by
`sorted(query_params.items())`. -/
def pairLe (a b : Str × Str) : Bool :=
  if a.1 = b.1 then lexLe a.2 b.2 else lexLe a.1 b.1

/-- A query string rendered as in `auth.py`:
`"&".flatten(f"{quote(k)}={quote(v)}" for k, v in sorted(params.items()))`. -/
def renderQuery (params : Dict) : Str :=
  List.intercalate (lc ("&"))
    ((List.insertionSort (fun a b => pairLe a b = true) params).map
      fun p => pyQuote (lc ("/")) p.1 ++ lc ("=") ++ pyQuote (lc ("/")) p.2)

/-- Python `parsed_url.path or "/"`. -/
def pathOrSlash (path : Str) : Str := if path.isEmpty = true then lc ("/") else path

/-- The header mutations `sign_request` performs on its local copy of the
caller's headers: inject `host`, `x-amz-date`, and (when absent)
`x-amz-content-sha256`. -/
def signHeadersPrepared (H : HashImpl) (host : Str) (payload : List Nat)
    (timestamp : Str) (headers : Dict) : Dict :=
  let h1 := dictSet headers (lc ("host")) host
  let h2 := dictSet h1 (lc ("x-amz-date")) timestamp
  if dictHasKey h2 (lc ("x-amz-content-sha256")) then h2
  else dictSet h2 (lc ("x-amz-content-sha256")) (_sha256_hash H payload)

/-- The `Authorization` value computed by `sign_request` from the prepared
header map. -/
def authorizationOf (H : HashImpl) (ctx : AWSSignatureV4) (method path : Str)
    (query_params : Dict) (timestamp date_stamp : Str) (prepared : Dict) : Str :=
  let signed_headers := signed_headers_str prepared
  let query_string := renderQuery query_params
  let canonical_request := _create_canonical_request method (pathOrSlash path) query_string
    prepared signed_headers (dictGet prepared (lc ("x-amz-content-sha256")))
  let string_to_sign := _create_string_to_sign H ctx timestamp date_stamp canonical_request
  let signing_key := _get_signature_key H ctx date_stamp
  let signature := hexLower (H.hmacBytes signing_key (strBytes string_to_sign))
  lc ("AWS4-HMAC-SHA256 Credential=") ++ ctx.access_key ++ lc ("/") ++
    credentialScope ctx date_stamp ++ lc (", SignedHeaders=") ++ signed_headers ++
    lc (", Signature=") ++ signature

/-- Result of `sign_request`.  `headers` is the returned (augmented) map;
`callerHeaders`/`callerParams` are the caller's collections as they stand
after the call (the embedding threads every mutation of a caller-owned dict
explicitly; `sign_request` works on `headers.copy()`, so the caller's dicts
come back untouched). -/
structure SignResult where
  headers : Dict
  callerHeaders : Dict
  callerParams : Dict
deriving DecidableEq

/-- Python `sign_request(method, url, headers, payload, query_params)`; `host` and
`path` stand for `urlparse(url).netloc` / `.path`, and
`timestamp`/`date_stamp` for the strings derived from `datetime.utcnow()`. -/
def sign_request (H : HashImpl) (ctx : AWSSignatureV4) (method host path : Str)
    (headers0 : Dict) (payload : List Nat) (query_params : Dict)
    (timestamp date_stamp : Str) : SignResult :=
  let prepared := signHeadersPrepared H host payload timestamp headers0
  { headers := dictSet prepared (lc ("Authorization"))
      (authorizationOf H ctx method path query_params timestamp date_stamp prepared),
    callerHeaders := headers0,
    callerParams := query_params }

/-- The five signing parameters `create_presigned_url` merges into the
caller's `query_params` via `dict.update`. -/
def awsPresignParams (ctx : AWSSignatureV4) (timestamp date_stamp : Str)
    (expires_in : Nat) : Dict :=
  [(lc ("X-Amz-Algorithm"), lc ("AWS4-HMAC-SHA256")),
   (lc ("X-Amz-Credential"), ctx.access_key ++ lc ("/") ++ credentialScope ctx date_stamp),
   (lc ("X-Amz-Date"), timestamp),
   (lc ("X-Amz-Expires"), natStr expires_in),
   (lc ("X-Amz-SignedHeaders"), lc ("host"))]

/-- The signature `create_presigned_url` computes over the merged parameters. -/
def presignSignature (H : HashImpl) (ctx : AWSSignatureV4) (method netloc path : Str)
    (timestamp date_stamp : Str) (qp : Dict) : Str :=
  let query_string := renderQuery qp
  let headers : Dict := [(lc ("host"), netloc)]
  let canonical_request := _create_canonical_request method (pathOrSlash path) query_string
    headers (lc ("host")) (lc ("UNSIGNED-PAYLOAD"))
  let string_to_sign := _create_string_to_sign H ctx timestamp date_stamp canonical_request
  let signing_key := _get_signature_key H ctx date_stamp
  hexLower (H.hmacBytes signing_key (strBytes string_to_sign))

/-- The caller's `query_params` dict at the end of `create_presigned_url`:
the function calls `query_params.update(...)` and later assigns
`query_params["X-Amz-Signature"]`, both on the caller's own object. -/
def presignFinalParams (H : HashImpl) (ctx : AWSSignatureV4) (method netloc path : Str)
    (expires_in : Nat) (query_params : Dict) (timestamp date_stamp : Str) : Dict :=
  dictSet (dictUpdate query_params (awsPresignParams ctx timestamp date_stamp expires_in))
    (lc ("X-Amz-Signature"))
    (presignSignature H ctx method netloc path timestamp date_stamp
      (dictUpdate query_params (awsPresignParams ctx timestamp date_stamp expires_in)))

/-- Result of `create_presigned_url`: the URL and the caller's `query_params`
as they stand after the call. -/
structure PresignResult where
  url : Str
  callerParams : Dict
deriving DecidableEq

/-- Python `create_presigned_url(method, url, expires_in, query_params)`; `scheme`,
`netloc`, `path` stand for the pieces of `urlparse(url)`. -/
def create_presigned_url (H : HashImpl) (ctx : AWSSignatureV4)
    (method scheme netloc path : Str) (expires_in : Nat) (query_params : Dict)
    (timestamp date_stamp : Str) : PresignResult :=
  { url := scheme ++ lc ("://") ++ netloc ++ path ++ lc ("?") ++
      renderQuery (presignFinalParams H ctx method netloc path expires_in
        query_params timestamp date_stamp),
    callerParams :=
      presignFinalParams H ctx method netloc path expires_in query_params timestamp date_stamp }

/-- The spec's rendering of the canonical header block: one
`lower-case-name:trimmed-value\n` line per header, sorted by the
LOWER-CASED header name.  Modelled from the spec sentence "Headers included
in the signature are rendered as lower-case-name:trimmed-value\n, one line
per header, sorted by lower-cased name" for comparison with
`canonical_headers_str`. -/
def canonicalHeadersSpec (headers : Dict) : Str :=
  ((List.insertionSort (fun a b => lexLe (lower a) (lower b) = true) (keys headers)).map
    fun name => lower name ++ lc (":") ++ strip (dictGet headers name) ++ lc ("\n")).flatten

/-! ## Multipart upload operations (src/s3_asyncio_client/multipart.py) -/

/-- A part record as returned by `upload_part`. -/
structure PartRecord where
  part_number : Nat
  etag : Str
deriving DecidableEq

/-- An HTTP request as handed to `client._make_request`. -/
structure HttpRequest where
  method : Str
  bucket : Str
  key : Str
  params : Dict
  headers : Dict
  body : Str
deriving DecidableEq

/-- The XML completion manifest built by `complete_multipart_upload` from the
parts sorted by part number. -/
def completionXml (parts : List PartRecord) : Str :=
  let parts_sorted := List.insertionSort (fun a b : PartRecord => a.part_number ≤ b.part_number) parts
  lc ("<CompleteMultipartUpload>") ++
    (parts_sorted.map fun p =>
      lc ("<Part><PartNumber>") ++ natStr p.part_number ++ lc ("</PartNumber><ETag>\"") ++
        p.etag ++ lc ("\"</ETag></Part>")).flatten ++
    lc ("</CompleteMultipartUpload>")

/-- Python `complete_multipart_upload(client, bucket, key, upload_id, parts)` up to the
point where the completion request is dispatched: an empty parts list raises
`S3ClientError("No parts to complete")` first; otherwise the function builds
the manifest and dispatches exactly the returned request. -/
def complete_multipart_upload (bucket key upload_id : Str) (parts : List PartRecord) :
    Except Str HttpRequest :=
  if parts.isEmpty = true then Except.error (lc ("No parts to complete"))
  else
    let xml_data := completionXml parts
    Except.ok
      { method := lc ("POST"), bucket := bucket, key := key,
        params := [(lc ("uploadId"), upload_id)],
        headers := [(lc ("Content-Type"), lc ("application/xml")),
                    (lc ("Content-Length"), natStr (strBytes xml_data).length)],
        body := xml_data }

/-! ## File size calculation (`calculate_file_size`, file-like branch) -/

/-- A seekable file-like object: its content and current read position. -/
structure FileObj where
  content : List Nat
  pos : Nat
deriving DecidableEq

def FileObj.tell (f : FileObj) : Nat := f.pos

/-- Python `f.seek(0, 2)`: seek to end. -/
def FileObj.seekEnd (f : FileObj) : FileObj := { f with pos := f.content.length }

/-- Python `f.seek(p)`: seek to absolute position `p`. -/
def FileObj.seekTo (f : FileObj) (p : Nat) : FileObj := { f with pos := p }

/-- Python `calculate_file_size` on a file-like object with `seek`/`tell`: remember
the position, seek to the end, read the size, restore the position.  Returns
the size and the final state of the object. -/
def calculate_file_size (f : FileObj) : Nat × FileObj :=
  let current_pos := f.tell
  let f1 := f.seekEnd
  let size := f1.tell
  let f2 := f1.seekTo current_pos
  (size, f2)

/-! ## Multipart orchestrator (`_upload_multipart`)

The orchestrator is embedded as a function of the outcomes of its awaited
steps: the aggregated part-upload outcome (a `TaskGroup` failure surfaces as
the exception of `_upload_parts_concurrently`), the completion call's outcome,
and the abort call's outcome.  The trace records each S3 call made after the
session was initiated, paired with whether that call succeeded. -/

inductive MPCall where
  | create
  | uploadParts
  | complete
  | abort
deriving DecidableEq

/-- The result dict built on success (abstracted to the fields the claims
mention). -/
structure UploadResult where
  etag : Str
  parts_count : Nat
deriving DecidableEq

def callOutcome {α : Type} : Except Str α → Bool
  | Except.ok _ => true
  | Except.error _ => false

/-- Python `_upload_multipart` after `create_multipart_upload` has returned an upload
id: the `try` block uploads the parts and completes; `except Exception` runs a
best-effort abort (its own failure swallowed by the inner `try`/`except:
pass`) and re-raises the original error. -/
def _upload_multipart (partsResult : Except Str (List PartRecord))
    (completeResult : List PartRecord → Except Str UploadResult)
    (abortResult : Except Str Unit) :
    List (MPCall × Bool) × Except Str UploadResult :=
  match partsResult with
  | Except.error e =>
    ([(MPCall.create, true), (MPCall.uploadParts, false),
      (MPCall.abort, callOutcome abortResult)],
     Except.error e)
  | Except.ok parts =>
    match completeResult parts with
    | Except.error e =>
      ([(MPCall.create, true), (MPCall.uploadParts, true), (MPCall.complete, false),
        (MPCall.abort, callOutcome abortResult)],
       Except.error e)
    | Except.ok r =>
      ([(MPCall.create, true), (MPCall.uploadParts, true), (MPCall.complete, true)],
       Except.ok r)

/-! ## Claims -/

/-- Claim C6: `should_use_multipart(file_size, threshold)` returns true iff
`file_size > threshold` (strictly greater; equality selects single-part); in
particular it is false at `(8 MiB, 8 MiB)` and true at `(8 MiB + 1, 8 MiB)`. -/
theorem C6_multipart_iff_strictly_greater :
    (∀ file_size threshold : Nat,
      should_use_multipart file_size threshold = true ↔ threshold < file_size) ∧
    should_use_multipart (8 * 1024 * 1024) (8 * 1024 * 1024) = false ∧
    should_use_multipart (8 * 1024 * 1024 + 1) (8 * 1024 * 1024) = true := by
  refine ⟨fun f t => ?_, by decide, by decide⟩
  simp [should_use_multipart]

/-- Claim C10: on a seekable file-like object, `calculate_file_size` returns
the total content size and restores the read position, leaving the object in
its original state. -/
theorem C10_calculate_file_size_frame (content : List Nat) (p : Nat) :
    (calculate_file_size ⟨content, p⟩).1 = content.length ∧
    (calculate_file_size ⟨content, p⟩).2 = ⟨content, p⟩ :=
  ⟨rfl, rfl⟩

/-- Claim C9: `complete_multipart_upload` with an empty parts list raises
`S3ClientError("No parts to complete")` before any request is built or
dispatched (the embedding returns the request it would dispatch; an error
means none exists). -/
theorem C9_complete_empty_parts_error (bucket key upload_id : Str) :
    complete_multipart_upload bucket key upload_id [] =
      Except.error (lc ("No parts to complete")) := rfl

/-- Claim C2: once a multipart session exists, a failure of the part uploads
or of the completion call leads to exactly one abort call and no complete
call after the failure; the original error is propagated whatever the abort
call's own outcome (abort failures are swallowed); and on full success abort
is never called. -/
theorem C2_abort_exactly_once_on_failure
    (partsResult : Except Str (List PartRecord))
    (comp : List PartRecord → Except Str UploadResult)
    (ab ab' : Except Str Unit) (e : Str)
    (hfail : partsResult = Except.error e ∨
      ∃ parts, partsResult = Except.ok parts ∧ comp parts = Except.error e) :
    (((_upload_multipart partsResult comp ab).1.map Prod.fst).count MPCall.abort = 1) ∧
    ((_upload_multipart partsResult comp ab).1 =
        [(MPCall.create, true), (MPCall.uploadParts, false),
         (MPCall.abort, callOutcome ab)] ∨
     (_upload_multipart partsResult comp ab).1 =
        [(MPCall.create, true), (MPCall.uploadParts, true), (MPCall.complete, false),
         (MPCall.abort, callOutcome ab)]) ∧
    ((_upload_multipart partsResult comp ab).2 = Except.error e) ∧
    ((_upload_multipart partsResult comp ab').2 = Except.error e) ∧
    (∀ (comp2 : List PartRecord → Except Str UploadResult)
       (parts : List PartRecord) (r : UploadResult),
      comp2 parts = Except.ok r →
      ((_upload_multipart (Except.ok parts) comp2 ab).1.map Prod.fst).count MPCall.abort = 0 ∧
      (_upload_multipart (Except.ok parts) comp2 ab).2 = Except.ok r) := by
  have hsucc : ∀ (comp2 : List PartRecord → Except Str UploadResult)
      (parts : List PartRecord) (r : UploadResult),
      comp2 parts = Except.ok r →
      ((_upload_multipart (Except.ok parts) comp2 ab).1.map Prod.fst).count MPCall.abort = 0 ∧
      (_upload_multipart (Except.ok parts) comp2 ab).2 = Except.ok r := by
    intro comp2 parts r h
    simp [_upload_multipart, h]
  rcases hfail with h | ⟨parts, hok, herr⟩
  · subst h
    exact ⟨by simp [_upload_multipart], Or.inl rfl, rfl, rfl, hsucc⟩
  · subst hok
    refine ⟨?_, ?_, ?_, ?_, hsucc⟩
    · simp [_upload_multipart, herr]
    · right; simp [_upload_multipart, herr]
    · simp [_upload_multipart, herr]
    · simp [_upload_multipart, herr]

/-- Witness for C2: a run where part upload 2 fails and the abort call itself
also fails still records exactly one abort call. -/
theorem C2_abort_exactly_once_on_failure_witness :
    ((_upload_multipart (Except.error (lc ("part 2 failed")))
        (fun _ => Except.ok ⟨lc ("etag"), 1⟩)
        (Except.error (lc ("abort failed")))).1.map Prod.fst).count MPCall.abort = 1 :=
  (C2_abort_exactly_once_on_failure (Except.error (lc ("part 2 failed")))
    (fun _ => Except.ok ⟨lc ("etag"), 1⟩) (Except.error (lc ("abort failed")))
    (Except.ok ()) (lc ("part 2 failed")) (Or.inl rfl)).1

/-- Claim C1 is false as stated: for `sourceSize = MAX_PARTS * MAX_PART_SIZE + 1`
(just above 10000 parts of 5 GiB) and initial `partSize = 6 GiB`, the doubling
loop never runs (6 GiB already gives ≤ 10000 parts) but the clamp lowers the
result to 5 GiB, so the returned size needs 10001 > 10000 parts. -/
theorem C1_counterexample :
    0 < 6 * GB ∧ 0 < MAX_PARTS * MAX_PART_SIZE + 1 ∧
    ¬ ceilDiv (MAX_PARTS * MAX_PART_SIZE + 1)
        (adjust_chunk_size (6 * GB) (MAX_PARTS * MAX_PART_SIZE + 1)) ≤ MAX_PARTS := by
  have h1 : _adjust_for_max_parts (6 * GB) (MAX_PARTS * MAX_PART_SIZE + 1) = 6 * GB := by
    rw [_adjust_for_max_parts]
    norm_num [ceilDiv, MAX_PARTS, MAX_PART_SIZE, GB, MB]
  refine ⟨by norm_num [GB, MB], by norm_num [MAX_PARTS, MAX_PART_SIZE, GB, MB], ?_⟩
  rw [adjust_chunk_size, h1]
  norm_num [_adjust_for_size_limits, ceilDiv, MAX_PARTS, MAX_PART_SIZE, MIN_PART_SIZE, GB, MB]

/-- Claim C1 as amended: for every positive `sourceSize` and every positive
initial `partSize`, `adjust_chunk_size` returns an `effectiveSize` inside
`[5 MiB, 5 GiB]`; and whenever additionally `sourceSize ≤ MAX_PARTS *
MAX_PART_SIZE` (50 TiB, the largest object 10000 parts of 5 GiB can carry)
the returned size also satisfies `ceil(sourceSize / effectiveSize) ≤ 10000`. -/
theorem C1_amended_part_bounds (partSize sourceSize : Nat)
    (hp : 0 < partSize) (hs : 0 < sourceSize) :
    MIN_PART_SIZE ≤ adjust_chunk_size partSize sourceSize ∧
    adjust_chunk_size partSize sourceSize ≤ MAX_PART_SIZE ∧
    (sourceSize ≤ MAX_PARTS * MAX_PART_SIZE →
      ceilDiv sourceSize (adjust_chunk_size partSize sourceSize) ≤ MAX_PARTS) := by
  obtain ⟨hle, hge⟩ := _adjust_for_max_parts_spec partSize sourceSize hp
  have hxpos : 0 < _adjust_for_max_parts partSize sourceSize := lt_of_lt_of_le hp hge
  unfold adjust_chunk_size _adjust_for_size_limits
  by_cases hmax : MAX_PART_SIZE < _adjust_for_max_parts partSize sourceSize
  · rw [if_pos hmax]
    refine ⟨by norm_num [MIN_PART_SIZE, MAX_PART_SIZE, GB, MB], le_refl _, fun hbound => ?_⟩
    have hpos5 : (0 : Nat) < MAX_PART_SIZE := by norm_num [MAX_PART_SIZE, GB, MB]
    rw [ceilDiv_le_iff hpos5]
    calc sourceSize ≤ MAX_PARTS * MAX_PART_SIZE := hbound
      _ = MAX_PART_SIZE * MAX_PARTS := Nat.mul_comm _ _
  · rw [if_neg hmax]
    by_cases hmin : _adjust_for_max_parts partSize sourceSize < MIN_PART_SIZE
    · rw [if_pos hmin]
      refine ⟨le_refl _, by norm_num [MIN_PART_SIZE, MAX_PART_SIZE, GB, MB], fun _ => ?_⟩
      have hpos5 : (0 : Nat) < MIN_PART_SIZE := by norm_num [MIN_PART_SIZE, MB]
      rw [ceilDiv_le_iff hpos5]
      have hsx : sourceSize ≤ _adjust_for_max_parts partSize sourceSize * MAX_PARTS :=
        (ceilDiv_le_iff hxpos).mp hle
      calc sourceSize ≤ _adjust_for_max_parts partSize sourceSize * MAX_PARTS := hsx
        _ ≤ MIN_PART_SIZE * MAX_PARTS := Nat.mul_le_mul_right _ (le_of_lt hmin)
    · rw [if_neg hmin]
      exact ⟨le_of_not_lt hmin, le_of_not_lt hmax, fun _ => hle⟩

/-- Witness for the amended C1 at `partSize = 1`, `sourceSize = 1`. -/
theorem C1_amended_part_bounds_witness :
    (0 < 1) ∧
    (MIN_PART_SIZE ≤ adjust_chunk_size 1 1 ∧ adjust_chunk_size 1 1 ≤ MAX_PART_SIZE ∧
     (1 ≤ MAX_PARTS * MAX_PART_SIZE →
       ceilDiv 1 (adjust_chunk_size 1 1) ≤ MAX_PARTS)) :=
  ⟨by decide, C1_amended_part_bounds 1 1 (by decide) (by decide)⟩

theorem edgeDashDot_eq_false_iff (o : Option Char) :
    edgeDashDot o = false ↔ ∀ c, o = some c → c ≠ '-' ∧ c ≠ '.' := by
  cases o <;> simp [edgeDashDot]

/-- Claim C7 is false as stated: Python's `$` anchor accepts one trailing
newline, so the code returns True on `"abc\n"` although `'\n'` is not a
lowercase letter, digit, `.` or `-` — the claimed characterisation fails at
that input. -/
theorem C7_counterexample :
    ¬ (is_valid_s3_bucket_subdomain (lc ("abc\n")) = true ↔
        (3 ≤ (lc ("abc\n")).length ∧ (lc ("abc\n")).length ≤ 63 ∧
         (∀ c ∈ lc ("abc\n"), bucketCharOk c = true) ∧
         (∀ c, (lc ("abc\n")).head? = some c → c ≠ '-' ∧ c ≠ '.') ∧
         (∀ c, (lc ("abc\n")).getLast? = some c → c ≠ '-' ∧ c ≠ '.') ∧
         containsSeq (lc ("abc\n")) (lc ("..")) = false ∧
         containsSeq (lc ("abc\n")) (lc (".-")) = false ∧
         containsSeq (lc ("abc\n")) (lc ("-.")) = false ∧
         isIPv4Shape (lc ("abc\n")) = false)) := by
  intro h
  have hr := h.mp (by decide)
  have hnl : bucketCharOk '\n' = true := hr.2.2.1 '\n' (by decide)
  exact absurd hnl (by decide)

/-- Claim C7 as amended: `is_valid_s3_bucket_subdomain(bucket)` is true iff
the length is in `[3, 63]`, the name minus an optional single trailing
newline (which Python's `$` anchor tolerates in both anchored regexes) is a
non-empty string of lowercase letters, digits, `.` and `-`, the first and
last characters are not `-` or `.`, none of `..`, `.-`, `-.` occurs, and the
newline-stripped name is not a dotted-quad (four dot-separated decimal digit
runs, the shape of the code's IPv4 regex); with the claim's four concrete
instances, and `"abc\n"` accepted as the trailing-newline quirk instance. -/
theorem C7_amended_bucket_validity :
    (∀ b : List Char,
      is_valid_s3_bucket_subdomain b = true ↔
        (3 ≤ b.length ∧ b.length ≤ 63 ∧
         matchEnd b ≠ [] ∧
         (∀ c ∈ matchEnd b, bucketCharOk c = true) ∧
         (∀ c, b.head? = some c → c ≠ '-' ∧ c ≠ '.') ∧
         (∀ c, b.getLast? = some c → c ≠ '-' ∧ c ≠ '.') ∧
         containsSeq b (lc ("..")) = false ∧ containsSeq b (lc (".-")) = false ∧
         containsSeq b (lc ("-.")) = false ∧ isIPv4Shape (matchEnd b) = false)) ∧
    is_valid_s3_bucket_subdomain (lc ("my.bucket-1")) = true ∧
    is_valid_s3_bucket_subdomain (lc ("My_Bucket")) = false ∧
    is_valid_s3_bucket_subdomain (lc ("a")) = false ∧
    is_valid_s3_bucket_subdomain (lc ("192.168.1.1")) = false ∧
    is_valid_s3_bucket_subdomain (lc ("abc\n")) = true := by
  refine ⟨fun b => ?_, by decide, by decide, by decide, by decide, by decide⟩
  unfold is_valid_s3_bucket_subdomain
  split_ifs with h1 h2 h3 h4 h5
  · simp only [false_iff]
    rintro ⟨hl3, hl63, -⟩
    rcases h1 with he | hlt | hgt
    · have hnil : b = [] := List.isEmpty_iff.mp he
      subst hnil; simp at hl3
    · omega
    · omega
  · simp only [false_iff]
    rintro ⟨-, -, hne, hall, -⟩
    exact absurd ((bucketCharsetMatch_eq_true_iff b).mpr ⟨hne, hall⟩) (by simp [h2])
  · simp only [false_iff]
    rintro ⟨-, -, -, -, hhd, hlast, -⟩
    rcases h3 with hh | hl
    · have hfd := (edgeDashDot_eq_false_iff b.head?).mpr hhd
      rw [hfd] at hh; exact absurd hh (by simp)
    · have hfd := (edgeDashDot_eq_false_iff b.getLast?).mpr hlast
      rw [hfd] at hl; exact absurd hl (by simp)
  · simp only [false_iff]
    rintro ⟨-, -, -, -, -, -, hc1, hc2, hc3, -⟩
    rcases h4 with h | h | h
    · rw [hc1] at h; exact absurd h (by simp)
    · rw [hc2] at h; exact absurd h (by simp)
    · rw [hc3] at h; exact absurd h (by simp)
  · simp only [false_iff]
    rintro ⟨-, -, -, -, -, -, -, -, -, hip⟩
    rw [hip] at h5; exact absurd h5 (by simp)
  · refine iff_of_true rfl ?_
    push_neg at h1
    obtain ⟨hne0, hl3, hl63⟩ := h1
    have hmatch : bucketCharsetMatch b = true := by simpa using h2
    obtain ⟨hne, hall⟩ := (bucketCharsetMatch_eq_true_iff b).mp hmatch
    push_neg at h3
    push_neg at h4
    refine ⟨by omega, by omega, hne, hall,
      (edgeDashDot_eq_false_iff b.head?).mp (by simpa using h3.1),
      (edgeDashDot_eq_false_iff b.getLast?).mp (by simpa using h3.2),
      by simpa using h4.1, by simpa using h4.2.1, by simpa using h4.2.2,
      by simpa using h5⟩

/-! ## Order lemmas for the sorting relations used by the signature engine -/

theorem lexLe_cons_iff {x y : Char} {xs ys : List Char} :
    lexLe (x :: xs) (y :: ys) = true ↔ x < y ∨ (x = y ∧ lexLe xs ys = true) := by
  by_cases h1 : x < y
  · simp [lexLe, h1]
  · by_cases h2 : y < x
    · have hne : x ≠ y := ne_of_gt h2
      simp [lexLe, h1, h2, hne]
    · have heq : x = y := le_antisymm (not_lt.mp h2) (not_lt.mp h1)
      simp [lexLe, h1, h2, heq]

theorem lexLe_total (a b : List Char) : lexLe a b = true ∨ lexLe b a = true := by
  induction a generalizing b with
  | nil => exact Or.inl rfl
  | cons x xs ih =>
    cases b with
    | nil => exact Or.inr rfl
    | cons y ys =>
      rcases lt_trichotomy x y with h | h | h
      · exact Or.inl (lexLe_cons_iff.mpr (Or.inl h))
      · rcases ih ys with hr | hr
        · exact Or.inl (lexLe_cons_iff.mpr (Or.inr ⟨h, hr⟩))
        · exact Or.inr (lexLe_cons_iff.mpr (Or.inr ⟨h.symm, hr⟩))
      · exact Or.inr (lexLe_cons_iff.mpr (Or.inl h))

theorem lexLe_trans {a b c : List Char} (h1 : lexLe a b = true) (h2 : lexLe b c = true) :
    lexLe a c = true := by
  induction a generalizing b c with
  | nil => rfl
  | cons x xs ih =>
    cases b with
    | nil => simp [lexLe] at h1
    | cons y ys =>
      cases c with
      | nil => simp [lexLe] at h2
      | cons z zs =>
        rcases lexLe_cons_iff.mp h1 with h | ⟨he, hr⟩
        · rcases lexLe_cons_iff.mp h2 with h' | ⟨he', hr'⟩
          · exact lexLe_cons_iff.mpr (Or.inl (lt_trans h h'))
          · exact lexLe_cons_iff.mpr (Or.inl (he' ▸ h))
        · rcases lexLe_cons_iff.mp h2 with h' | ⟨he', hr'⟩
          · exact lexLe_cons_iff.mpr (Or.inl (by rw [he]; exact h'))
          · exact lexLe_cons_iff.mpr (Or.inr ⟨he.trans he', ih hr hr'⟩)

theorem lexLe_antisymm {a b : List Char} (h1 : lexLe a b = true) (h2 : lexLe b a = true) :
    a = b := by
  induction a generalizing b with
  | nil =>
    cases b with
    | nil => rfl
    | cons y ys => simp [lexLe] at h2
  | cons x xs ih =>
    cases b with
    | nil => simp [lexLe] at h1
    | cons y ys =>
      rcases lexLe_cons_iff.mp h1 with h | ⟨he, hr⟩
      · rcases lexLe_cons_iff.mp h2 with h' | ⟨he', hr'⟩
        · exact absurd (lt_trans h h') (lt_irrefl x)
        · exact absurd h (by rw [he']; exact lt_irrefl x)
      · rcases lexLe_cons_iff.mp h2 with h' | ⟨he', hr'⟩
        · exact absurd h' (by rw [he]; exact lt_irrefl y)
        · rw [he, ih hr hr']

instance : IsTotal Str (fun a b => lexLe a b = true) := ⟨lexLe_total⟩

instance : IsTrans Str (fun a b => lexLe a b = true) := ⟨fun _ _ _ => lexLe_trans⟩

instance : IsAntisymm Str (fun a b => lexLe a b = true) := ⟨fun _ _ => lexLe_antisymm⟩

instance : IsTotal Str (fun a b => lexLe (lower a) (lower b) = true) :=
  ⟨fun a b => lexLe_total (lower a) (lower b)⟩

instance : IsTrans Str (fun a b => lexLe (lower a) (lower b) = true) :=
  ⟨fun _ _ _ => lexLe_trans⟩

theorem pairLe_total (a b : Str × Str) : pairLe a b = true ∨ pairLe b a = true := by
  unfold pairLe
  by_cases h : a.1 = b.1
  · simp [h]
    exact lexLe_total a.2 b.2
  · have h' : b.1 ≠ a.1 := fun hh => h hh.symm
    simp [h, h']
    exact lexLe_total a.1 b.1

theorem pairLe_trans {a b c : Str × Str} (h1 : pairLe a b = true) (h2 : pairLe b c = true) :
    pairLe a c = true := by
  unfold pairLe at *
  by_cases hab : a.1 = b.1
  · by_cases hbc : b.1 = c.1
    · have hac : a.1 = c.1 := hab.trans hbc
      rw [if_pos hab] at h1
      rw [if_pos hbc] at h2
      rw [if_pos hac]
      exact lexLe_trans h1 h2
    · have hac : a.1 ≠ c.1 := by rw [hab]; exact hbc
      rw [if_neg hbc] at h2
      rw [if_neg hac, hab]
      exact h2
  · by_cases hbc : b.1 = c.1
    · have hac : a.1 ≠ c.1 := by rw [← hbc]; exact hab
      rw [if_neg hab] at h1
      rw [if_neg hac, ← hbc]
      exact h1
    · rw [if_neg hab] at h1
      rw [if_neg hbc] at h2
      by_cases hac : a.1 = c.1
      · exact absurd (lexLe_antisymm h1 (hac ▸ h2)) hab
      · rw [if_neg hac]
        exact lexLe_trans h1 h2

instance : IsTotal (Str × Str) (fun a b => pairLe a b = true) := ⟨pairLe_total⟩

instance : IsTrans (Str × Str) (fun a b => pairLe a b = true) := ⟨fun _ _ _ => pairLe_trans⟩

/-! ## Dict lemmas -/

theorem dictGet_cons (x : Str × Str) (l : Dict) (k : Str) :
    dictGet (x :: l) k = if x.1 == k then x.2 else dictGet l k := by
  by_cases h : x.1 == k
  · simp [dictGet, List.find?_cons_of_pos, h]
  · simp only [Bool.not_eq_true] at h
    simp [dictGet, List.find?_cons_of_neg, h]

theorem keys_cons (x : Str × Str) (l : Dict) : keys (x :: l) = x.1 :: keys l := rfl

theorem dictHasKey_perm {d1 d2 : Dict} (h : d1.Perm d2) (k : Str) :
    dictHasKey d1 k = dictHasKey d2 k := by
  unfold dictHasKey keys
  simp only [decide_eq_decide]
  exact (h.map Prod.fst).mem_iff

theorem dictHasKey_false_not_mem {d : Dict} {k : Str} (h : ¬ dictHasKey d k = true) :
    k ∉ keys d := fun hmem => h (decide_eq_true hmem)

theorem dictGet_perm {d1 d2 : Dict} (h : d1.Perm d2) (hnd : (keys d1).Nodup) (k : Str) :
    dictGet d1 k = dictGet d2 k := by
  induction h with
  | nil => rfl
  | cons x hp ih =>
    rw [dictGet_cons, dictGet_cons]
    rw [keys_cons] at hnd
    rw [ih (List.nodup_cons.mp hnd).2]
  | swap x y l =>
    rw [dictGet_cons, dictGet_cons, dictGet_cons, dictGet_cons]
    rw [keys_cons, keys_cons] at hnd
    by_cases hy : y.1 == k
    · by_cases hx : x.1 == k
      · have hxy : y.1 = x.1 := (eq_of_beq hy).trans (eq_of_beq hx).symm
        have hne : y.1 ≠ x.1 := by
          intro hcon
          exact (List.nodup_cons.mp hnd).1 (by simp [hcon])
        exact absurd hxy hne
      · have hxf : (x.1 == k) = false := by simpa using hx
        simp [hy, hxf]
    · have hyf : (y.1 == k) = false := by simpa using hy
      simp [hyf]
  | trans hp1 hp2 ih1 ih2 =>
    have hnd2 : _ := ((hp1.map Prod.fst).nodup_iff).mp hnd
    rw [ih1 hnd, ih2 hnd2]

theorem dictSet_perm {d1 d2 : Dict} (h : d1.Perm d2) (k v : Str) :
    (dictSet d1 k v).Perm (dictSet d2 k v) := by
  unfold dictSet
  rw [dictHasKey_perm h]
  by_cases hk : dictHasKey d2 k = true
  · rw [if_pos hk, if_pos hk]
    exact h.map _
  · rw [if_neg hk, if_neg hk]
    exact h.append_right _

theorem keys_dictSet (d : Dict) (k v : Str) :
    keys (dictSet d k v) = if dictHasKey d k then keys d else keys d ++ [k] := by
  unfold dictSet
  by_cases h : dictHasKey d k = true
  · rw [if_pos h, if_pos h]
    unfold keys
    rw [List.map_map]
    apply List.map_congr_left
    intro p _
    by_cases hx : p.1 == k
    · simp [hx, eq_of_beq hx]
    · have hne : p.1 ≠ k := ne_of_beq_false (by simpa using hx)
      simp [hx, hne]
  · rw [if_neg h, if_neg h]
    simp [keys]

theorem keys_dictSet_nodup {d : Dict} (hnd : (keys d).Nodup) (k v : Str) :
    (keys (dictSet d k v)).Nodup := by
  rw [keys_dictSet]
  by_cases h : dictHasKey d k = true
  · rwa [if_pos h]
  · rw [if_neg h]
    have hk : k ∉ keys d := dictHasKey_false_not_mem h
    simp [List.nodup_append, hnd, hk]

theorem dictGet_dictSet_self (d : Dict) (k v : Str) : dictGet (dictSet d k v) k = v := by
  unfold dictSet
  by_cases h : dictHasKey d k = true
  · rw [if_pos h]
    have hk : k ∈ keys d := of_decide_eq_true h
    clear h
    induction d with
    | nil => simp [keys] at hk
    | cons x l ih =>
      rw [List.map_cons]
      by_cases hx : x.1 == k
      · simp [hx, dictGet_cons]
      · have hxf : (x.1 == k) = false := by simpa using hx
        have hkl : k ∈ keys l := by
          rw [keys_cons] at hk
          rcases List.mem_cons.mp hk with he | hm
          · exact absurd (by simp [he] : (x.1 == k) = true) hx
          · exact hm
        rw [hxf, if_neg (by simp : ¬ (false = true)), dictGet_cons]
        simp only [hxf, Bool.false_eq_true, if_false]
        exact ih hkl
  · rw [if_neg h]
    have hk : k ∉ keys d := dictHasKey_false_not_mem h
    clear h
    induction d with
    | nil => simp [dictGet_cons]
    | cons x l ih =>
      rw [List.cons_append, dictGet_cons]
      rw [keys_cons] at hk
      have hxf : (x.1 == k) = false := by
        have hne : x.1 ≠ k := fun hc => hk (by simp [hc])
        simpa using hne
      simp only [hxf, Bool.false_eq_true, if_false]
      exact ih (fun hm => hk (List.mem_cons_of_mem _ hm))

theorem mem_dictSet_of_ne {d : Dict} {k v : Str} (hmem : (k, v) ∈ d) (k' v' : Str)
    (hne : k ≠ k') : (k, v) ∈ dictSet d k' v' := by
  unfold dictSet
  by_cases h : dictHasKey d k' = true
  · rw [if_pos h]
    have hmap : (fun p : Str × Str => if p.1 == k' then (k', v') else p) (k, v) = (k, v) := by
      have : ¬ (k == k') = true := by simpa using hne
      simp only [Bool.not_eq_true] at this
      simp [this]
    rw [← hmap]
    exact List.mem_map_of_mem _ hmem
  · rw [if_neg h]
    exact List.mem_append_left _ hmem

theorem keys_dictSet_sub {d : Dict} {k k' v' : Str}
    (hmem : k ∈ keys (dictSet d k' v')) : k ∈ keys d ∨ k = k' := by
  rw [keys_dictSet] at hmem
  by_cases h : dictHasKey d k' = true
  · rw [if_pos h] at hmem
    exact Or.inl hmem
  · rw [if_neg h] at hmem
    simpa using hmem

theorem mem_dictUpdate_of_ne {k v : Str} (entries : Dict) (d : Dict)
    (hmem : (k, v) ∈ d) (hout : k ∉ keys entries) : (k, v) ∈ dictUpdate d entries := by
  induction entries generalizing d with
  | nil => exact hmem
  | cons e rest ih =>
    have h1 : (k, v) ∈ dictSet d e.1 e.2 :=
      mem_dictSet_of_ne hmem e.1 e.2 (fun hc => hout (by simp [keys, hc]))
    exact ih (dictSet d e.1 e.2) h1 (fun hc => hout (by simp [keys] at hc ⊢; exact Or.inr hc))

theorem keys_dictUpdate_sub {k : Str} (entries : Dict) (d : Dict)
    (hmem : k ∈ keys (dictUpdate d entries)) : k ∈ keys d ∨ k ∈ keys entries := by
  induction entries generalizing d with
  | nil => exact Or.inl hmem
  | cons e rest ih =>
    rcases ih (dictSet d e.1 e.2) hmem with h | h
    · rcases keys_dictSet_sub h with h' | h'
      · exact Or.inl h'
      · exact Or.inr (by simp [keys, h'])
    · exact Or.inr (by simp [keys] at h ⊢; exact Or.inr h)

theorem keys_dictUpdate_nodup (entries : Dict) (d : Dict) (hnd : (keys d).Nodup) :
    (keys (dictUpdate d entries)).Nodup := by
  induction entries generalizing d with
  | nil => exact hnd
  | cons e rest ih => exact ih _ (keys_dictSet_nodup hnd e.1 e.2)

/-! ## Sorting under permutation -/

theorem insertionSort_lexLe_perm_eq {l1 l2 : List Str} (h : l1.Perm l2) :
    List.insertionSort (fun a b => lexLe a b = true) l1 =
    List.insertionSort (fun a b => lexLe a b = true) l2 :=
  List.eq_of_perm_of_sorted
    ((List.perm_insertionSort _ l1).trans (h.trans (List.perm_insertionSort _ l2).symm))
    (List.sorted_insertionSort _ l1) (List.sorted_insertionSort _ l2)

/-- Two lists sorted by lower-cased comparison that are permutations of each
other are equal, provided no two entries collide after lower-casing. -/
theorem sorted_lowLe_perm_eq : ∀ {l1 l2 : List Str}, l1.Perm l2 →
    List.Sorted (fun a b => lexLe (lower a) (lower b) = true) l1 →
    List.Sorted (fun a b => lexLe (lower a) (lower b) = true) l2 →
    (l1.map lower).Nodup → l1 = l2 := by
  intro l1
  induction l1 with
  | nil =>
    intro l2 hp _ _ _
    exact (hp.symm.eq_nil).symm
  | cons a t ih =>
    intro l2 hp hs1 hs2 hnd
    cases l2 with
    | nil => exact absurd hp.eq_nil (by simp)
    | cons b t2 =>
      have hab : a = b := by
        by_contra hne
        have hbmem : b ∈ a :: t := hp.symm.subset (List.mem_cons_self b t2)
        have hamem : a ∈ b :: t2 := hp.subset (List.mem_cons_self a t)
        have hbt : b ∈ t := by
          rcases List.mem_cons.mp hbmem with h | h
          · exact absurd h.symm hne
          · exact h
        have hat2 : a ∈ t2 := by
          rcases List.mem_cons.mp hamem with h | h
          · exact absurd h hne
          · exact h
        have hle1 : lexLe (lower a) (lower b) = true := (List.sorted_cons.mp hs1).1 b hbt
        have hle2 : lexLe (lower b) (lower a) = true := (List.sorted_cons.mp hs2).1 a hat2
        have heq : lower a = lower b := lexLe_antisymm hle1 hle2
        have hmem : lower b ∈ t.map lower := List.mem_map_of_mem lower hbt
        rw [← heq] at hmem
        rw [List.map_cons] at hnd
        exact (List.nodup_cons.mp hnd).1 hmem
      subst hab
      have hpt : t.Perm t2 := hp.cons_inv
      have ht : t = t2 := by
        apply ih hpt (List.sorted_cons.mp hs1).2 (List.sorted_cons.mp hs2).2
        rw [List.map_cons] at hnd
        exact (List.nodup_cons.mp hnd).2
      rw [ht]

theorem insertionSort_lowLe_perm_eq {l1 l2 : List Str} (h : l1.Perm l2)
    (hnd : (l1.map lower).Nodup) :
    List.insertionSort (fun a b => lexLe (lower a) (lower b) = true) l1 =
    List.insertionSort (fun a b => lexLe (lower a) (lower b) = true) l2 := by
  apply sorted_lowLe_perm_eq
  · exact (List.perm_insertionSort _ l1).trans (h.trans (List.perm_insertionSort _ l2).symm)
  · exact List.sorted_insertionSort _ l1
  · exact List.sorted_insertionSort _ l2
  · exact (((List.perm_insertionSort _ l1).map lower).nodup_iff).mpr hnd

/-! ## The signature engine under permutation of the header map -/

theorem signHeadersPrepared_perm (H : HashImpl) (host : Str) (payload : List Nat)
    (ts : Str) {h1 h2 : Dict} (hp : h1.Perm h2) :
    (signHeadersPrepared H host payload ts h1).Perm (signHeadersPrepared H host payload ts h2) := by
  simp only [signHeadersPrepared]
  have p1 := dictSet_perm hp (lc ("host")) host
  have p2 := dictSet_perm p1 (lc ("x-amz-date")) ts
  rw [dictHasKey_perm p2 (lc ("x-amz-content-sha256"))]
  by_cases hk : dictHasKey (dictSet (dictSet h2 (lc ("host")) host) (lc ("x-amz-date")) ts)
      (lc ("x-amz-content-sha256")) = true
  · rw [if_pos hk, if_pos hk]
    exact p2
  · rw [if_neg hk, if_neg hk]
    exact dictSet_perm p2 _ _

theorem authorizationOf_perm (H : HashImpl) (ctx : AWSSignatureV4) (method path : Str)
    (qp : Dict) (ts ds : Str) {p1 p2 : Dict} (hperm : p1.Perm p2)
    (hnd : ((keys p1).map lower).Nodup) :
    authorizationOf H ctx method path qp ts ds p1 =
    authorizationOf H ctx method path qp ts ds p2 := by
  have hkeys : (keys p1).Perm (keys p2) := hperm.map _
  have hknd : (keys p1).Nodup := hnd.of_map
  have hsig : signed_headers_str p1 = signed_headers_str p2 := by
    unfold signed_headers_str
    rw [insertionSort_lowLe_perm_eq hkeys hnd]
  have hcanon : canonical_headers_str p1 = canonical_headers_str p2 := by
    unfold canonical_headers_str
    rw [insertionSort_lexLe_perm_eq hkeys]
    apply congrArg
    apply List.map_congr_left
    intro name _
    rw [dictGet_perm hperm hknd]
  have hget : dictGet p1 (lc ("x-amz-content-sha256")) =
      dictGet p2 (lc ("x-amz-content-sha256")) := dictGet_perm hperm hknd _
  simp only [authorizationOf, _create_canonical_request, _create_string_to_sign]
  rw [hsig, hcanon, hget]

/-! ## Concrete fixtures for evaluating the signature engine -/

/-- A concrete stand-in for the SHA-256/HMAC primitives; the claims settled at
concrete inputs do not depend on the digest values, only on how the engine
assembles its inputs and outputs. -/
def hashStub : HashImpl :=
  { sha256hex := fun _ => lc ("d41d8c"), hmacBytes := fun _ _ => [1, 171] }

def ctxEx : AWSSignatureV4 :=
  { access_key := lc ("AKIDEXAMPLE"), secret_key := lc ("SECRET"),
    region := lc ("us-east-1"), service := lc ("s3") }

def tsEx : Str := lc ("20230101T120000Z")

def dsEx : Str := lc ("20230101")

/-- A presigned-URL run whose caller passes an already percent-encoded value. -/
def presignEx : PresignResult :=
  create_presigned_url hashStub ctxEx (lc ("GET")) (lc ("https")) (lc ("h.example"))
    (lc ("/obj")) 3600 [(lc ("k"), lc ("a%20b"))] tsEx dsEx

/-- Claim C3 (the code contradicts it): for headers `{X-Custom: v, host:
h.example}` the canonical header block is ordered by the RAW names (uppercase
`X-Custom` sorts before `host`), not by the lower-cased names as the claim
states; the `SignedHeaders` list computed in the same signing operation
(`sorted(keys, key=str.lower)`) orders `host` first, so the two disagree. -/
theorem C3_canonical_block_raw_order :
    canonical_headers_str [(lc ("X-Custom"), lc ("v")), (lc ("host"), lc ("h.example"))] =
      lc ("x-custom:v\nhost:h.example\n") ∧
    canonicalHeadersSpec [(lc ("X-Custom"), lc ("v")), (lc ("host"), lc ("h.example"))] =
      lc ("host:h.example\nx-custom:v\n") ∧
    canonical_headers_str [(lc ("X-Custom"), lc ("v")), (lc ("host"), lc ("h.example"))] ≠
      canonicalHeadersSpec [(lc ("X-Custom"), lc ("v")), (lc ("host"), lc ("h.example"))] ∧
    signed_headers_str [(lc ("X-Custom"), lc ("v")), (lc ("host"), lc ("h.example"))] =
      lc ("host;X-Custom") := by
  refine ⟨by decide, by decide, by decide, by decide⟩

/-- Claim C4 is false as stated: `create_presigned_url` mutates the caller's
query-parameter dict (here: an empty dict is no longer empty after the call,
because `query_params.update(...)` and the `X-Amz-Signature` assignment hit
the caller's own object). -/
theorem C4_counterexample :
    (create_presigned_url hashStub ctxEx (lc ("GET")) (lc ("https")) (lc ("h.example"))
        (lc ("/key")) 3600 [] tsEx dsEx).callerParams ≠ [] := by decide

/-- Claim C4 as amended: `sign_request` never mutates the caller's header map
nor the caller's query-parameter map; `create_presigned_url` does mutate the
caller's query-parameter map, upserting exactly the five `X-Amz-*` signing
parameters and `X-Amz-Signature` while every other entry survives unchanged. -/
theorem C4_amended_mutation (H : HashImpl) (ctx : AWSSignatureV4)
    (method host path scheme netloc ppath : Str) (headers0 : Dict) (payload : List Nat)
    (qp qp2 : Dict) (expires_in : Nat) (ts ds : Str) :
    (sign_request H ctx method host path headers0 payload qp ts ds).callerHeaders = headers0 ∧
    (sign_request H ctx method host path headers0 payload qp ts ds).callerParams = qp ∧
    (∀ k v, (k, v) ∈ qp2 →
      k ∉ keys (awsPresignParams ctx ts ds expires_in) → k ≠ lc ("X-Amz-Signature") →
      (k, v) ∈ (create_presigned_url H ctx method scheme netloc ppath expires_in qp2 ts ds).callerParams) ∧
    (∀ k, k ∈ keys (create_presigned_url H ctx method scheme netloc ppath expires_in qp2 ts ds).callerParams →
      k ∈ keys qp2 ∨ k ∈ keys (awsPresignParams ctx ts ds expires_in) ∨ k = lc ("X-Amz-Signature")) := by
  refine ⟨rfl, rfl, ?_, ?_⟩
  · intro k v hmem hnotaws hnotsig
    simp only [create_presigned_url, presignFinalParams]
    exact mem_dictSet_of_ne (mem_dictUpdate_of_ne _ _ hmem hnotaws) _ _ hnotsig
  · intro k hmem
    simp only [create_presigned_url, presignFinalParams] at hmem
    rcases keys_dictSet_sub hmem with h | h
    · rcases keys_dictUpdate_sub _ _ h with h' | h'
      · exact Or.inl h'
      · exact Or.inr (Or.inl h')
    · exact Or.inr (Or.inr h)

set_option maxRecDepth 10000 in
/-- Witness for the amended C4 on concrete inputs: an entry `p: q` of the
caller's map survives `create_presigned_url`'s mutation. -/
theorem C4_amended_mutation_witness :
    ((lc ("p"), lc ("q")) ∈ [(lc ("p"), lc ("q"))] ∧
      lc ("p") ∉ keys (awsPresignParams ctxEx tsEx dsEx 3600) ∧ lc ("p") ≠ lc ("X-Amz-Signature")) ∧
    (lc ("p"), lc ("q")) ∈ (create_presigned_url hashStub ctxEx (lc ("GET")) (lc ("https"))
        (lc ("h.example")) (lc ("/key")) 3600 [(lc ("p"), lc ("q"))] tsEx dsEx).callerParams :=
  ⟨⟨by decide, by decide, by decide⟩,
    (C4_amended_mutation hashStub ctxEx (lc ("GET")) (lc ("h.example")) (lc ("/key"))
      (lc ("https")) (lc ("h.example")) (lc ("/key")) [] [] [] [(lc ("p"), lc ("q"))] 3600 tsEx dsEx).2.2.1
      (lc ("p")) (lc ("q")) (by decide) (by decide) (by decide)⟩

set_option maxRecDepth 100000 in
/-- Claim C5 is false as stated: with caller parameter `k = a%20b` (already
percent-encoded) the URL carries `k=a%2520b` — the `%` of the caller's escape
is re-encoded — and the query string does not end with the `X-Amz-Signature`
parameter (the parameters are sorted, and in particular
`X-Amz-SignedHeaders` and `k` sort after `X-Amz-Signature`). -/
theorem C5_counterexample :
    ¬ (containsSeq presignEx.url (lc ("k=a%2520b")) = false ∧
       endsWithSeq presignEx.url (lc ("X-Amz-Signature=01ab")) = true) := by decide

/-- Claim C5 as amended: for a caller map without duplicate keys, the rendered
parameter list of the returned URL has pairwise-distinct keys (each parameter
appears exactly once), the parameters appear sorted by `(key, value)` — so
`X-Amz-Signature` sits in sorted position rather than last — every non-signing
caller entry reaches the rendered list with its value unchanged, and the
rendering percent-encodes each key and value with `quote` whose escape of `%`
is `%25` (so caller-escaped values are re-encoded). -/
theorem C5_amended_query_rendering (H : HashImpl) (ctx : AWSSignatureV4)
    (method scheme netloc path : Str) (expires_in : Nat) (qp : Dict) (ts ds : Str)
    (hnd : (keys qp).Nodup) :
    ((keys (List.insertionSort (fun a b => pairLe a b = true)
        (presignFinalParams H ctx method netloc path expires_in qp ts ds))).Nodup) ∧
    (List.Sorted (fun a b => pairLe a b = true)
      (List.insertionSort (fun a b => pairLe a b = true)
        (presignFinalParams H ctx method netloc path expires_in qp ts ds))) ∧
    (∀ k v, (k, v) ∈ qp → k ∉ keys (awsPresignParams ctx ts ds expires_in) →
      k ≠ lc ("X-Amz-Signature") →
      (k, v) ∈ List.insertionSort (fun a b => pairLe a b = true)
        (presignFinalParams H ctx method netloc path expires_in qp ts ds)) ∧
    quoteChar (lc ("/")) '%' = lc ("%25") ∧
    (create_presigned_url H ctx method scheme netloc path expires_in qp ts ds).url =
      scheme ++ lc ("://") ++ netloc ++ path ++ lc ("?") ++
        renderQuery (presignFinalParams H ctx method netloc path expires_in qp ts ds) := by
  refine ⟨?_, List.sorted_insertionSort _ _, ?_, by decide, by simp only [create_presigned_url]⟩
  · have hnd2 : (keys (presignFinalParams H ctx method netloc path expires_in qp ts ds)).Nodup := by
      simp only [presignFinalParams]
      exact keys_dictSet_nodup (keys_dictUpdate_nodup _ _ hnd) _ _
    have hperm := (List.perm_insertionSort (fun a b => pairLe a b = true)
      (presignFinalParams H ctx method netloc path expires_in qp ts ds)).map Prod.fst
    exact (hperm.nodup_iff).mpr hnd2
  · intro k v hmem hnotaws hnotsig
    have h1 : (k, v) ∈ presignFinalParams H ctx method netloc path expires_in qp ts ds := by
      simp only [presignFinalParams]
      exact mem_dictSet_of_ne (mem_dictUpdate_of_ne _ _ hmem hnotaws) _ _ hnotsig
    exact ((List.perm_insertionSort _ _).mem_iff).mpr h1

/-- Witness for the amended C5: the caller map `[k = a%20b]` has no duplicate
keys, and the rendered parameter list of the resulting URL has
pairwise-distinct keys. -/
theorem C5_amended_query_rendering_witness :
    (keys [(lc ("k"), lc ("a%20b"))]).Nodup ∧
    ((keys (List.insertionSort (fun a b => pairLe a b = true)
        (presignFinalParams hashStub ctxEx (lc ("GET")) (lc ("h.example")) (lc ("/obj")) 3600
          [(lc ("k"), lc ("a%20b"))] tsEx dsEx))).Nodup) :=
  ⟨by decide,
   (C5_amended_query_rendering hashStub ctxEx (lc ("GET")) (lc ("https")) (lc ("h.example"))
      (lc ("/obj")) 3600 [(lc ("k"), lc ("a%20b"))] tsEx dsEx (by decide)).1⟩

/-- Claim C8 is false as stated: a header map may contain two names that
differ only by case (a Python dict admits both `A` and `a`); re-ordering those
two entries re-orders the tie inside `sorted(keys, key=str.lower)` (Python's
sort is stable) and so changes the `SignedHeaders` list and with it the
`Authorization` value. -/
theorem C8_counterexample :
    dictGet (sign_request hashStub ctxEx (lc ("GET")) (lc ("h.example")) (lc ("/k"))
        [(lc ("A"), lc ("1")), (lc ("a"), lc ("2"))] [] [] tsEx dsEx).headers (lc ("Authorization")) ≠
    dictGet (sign_request hashStub ctxEx (lc ("GET")) (lc ("h.example")) (lc ("/k"))
        [(lc ("a"), lc ("2")), (lc ("A"), lc ("1"))] [] [] tsEx dsEx).headers (lc ("Authorization")) := by
  decide

/-- Claim C8 as amended: for two header maps with the same entries in
different insertion orders and otherwise identical inputs (fixed timestamp),
`sign_request` produces the same `Authorization` value, provided no two names
of the signed header set (the caller's headers plus the injected `host`,
`x-amz-date`, `x-amz-content-sha256`) coincide after lower-casing. -/
theorem C8_amended_order_independence (H : HashImpl) (ctx : AWSSignatureV4)
    (method host path : Str) (payload : List Nat) (qp : Dict) (ts ds : Str)
    (h1 h2 : Dict) (hperm : h1.Perm h2)
    (hnd : ((keys (signHeadersPrepared H host payload ts h1)).map lower).Nodup) :
    dictGet (sign_request H ctx method host path h1 payload qp ts ds).headers
        (lc ("Authorization")) =
    dictGet (sign_request H ctx method host path h2 payload qp ts ds).headers
        (lc ("Authorization")) := by
  have hp := signHeadersPrepared_perm H host payload ts hperm
  have hauth := authorizationOf_perm H ctx method path qp ts ds hp hnd
  simp only [sign_request]
  rw [dictGet_dictSet_self, dictGet_dictSet_self, hauth]

/-- Witness for the amended C8: two concrete header maps that permute
`Content-Type` and `x-test` yield the same `Authorization` value. -/
theorem C8_amended_order_independence_witness :
    (((keys (signHeadersPrepared hashStub (lc ("h.example")) [] tsEx
        [(lc ("Content-Type"), lc ("text/plain")), (lc ("x-test"), lc ("1"))])).map lower).Nodup) ∧
    dictGet (sign_request hashStub ctxEx (lc ("GET")) (lc ("h.example")) (lc ("/k"))
        [(lc ("Content-Type"), lc ("text/plain")), (lc ("x-test"), lc ("1"))] [] [] tsEx dsEx).headers
        (lc ("Authorization")) =
    dictGet (sign_request hashStub ctxEx (lc ("GET")) (lc ("h.example")) (lc ("/k"))
        [(lc ("x-test"), lc ("1")), (lc ("Content-Type"), lc ("text/plain"))] [] [] tsEx dsEx).headers
        (lc ("Authorization")) :=
  ⟨by decide,
   C8_amended_order_independence hashStub ctxEx (lc ("GET")) (lc ("h.example")) (lc ("/k")) [] []
     tsEx dsEx
     [(lc ("Content-Type"), lc ("text/plain")), (lc ("x-test"), lc ("1"))]
     [(lc ("x-test"), lc ("1")), (lc ("Content-Type"), lc ("text/plain"))]
     (List.Perm.swap (lc ("x-test"), lc ("1")) (lc ("Content-Type"), lc ("text/plain")) [])
     (by decide)⟩

end S3
